import Mathlib

/-!
Verification development for the TournamentManager web client
(src/tournament-manager/src/App.jsx).

The JavaScript source is shallowly embedded: strings are Lean `String`
(processed as `List Char`), JS numbers arising from form input are modelled
on the exact decimal fragment as a signed mantissa together with a count of
fraction digits (`Int × Nat`, value = mantissa / 10 ^ count), and the
stateful React operations are modelled as pure functions over an explicit
event list plus the inputs they read (current time and freshly generated
ids are passed as parameters).  Character classes follow the ASCII fragment
of the JavaScript regular-expression classes used by the source.
-/

namespace TM

/-- Whitespace class: the ASCII fragment of the JavaScript regex class
used by the source in `replace(/\s+/g, ...)` and `String.prototype.trim`. -/
def jsWS (c : Char) : Bool :=
  c = ' ' || c = '\t' || c = '\n' || c = '\r' || c = '\x0b' || c = '\x0c'

/-- Carriage-return / line-feed class, the regex class of
`replace(/[\r\n]+/g, " ")` in `sanitizeText`. -/
def isCRLF (c : Char) : Bool :=
  c = '\r' || c = '\n'

/-- ASCII digit, the regex class `\d`. -/
def isDigitC (c : Char) : Bool :=
  48 ≤ c.toNat && c.toNat ≤ 57

/-- Date separator characters of `parseDateFlexible`. -/
def isSepChar (c : Char) : Bool :=
  c = '/' || c = '.' || c = '-'

/-- Separator-or-whitespace: splitting class of
`split(/[\/\.\-\s]+/)` and the trailing-strip class `[\.\/\-\s]+$`. -/
def isSepOrWS (c : Char) : Bool :=
  isSepChar c || jsWS c

/-- Characters kept by the cleaning step of `parseDateFlexible`,
that is, not removed by `replace(/[^\d\/\.\-\s]/g, "")`. -/
def keepDateChar (c : Char) : Bool :=
  isDigitC c || isSepChar c || jsWS c

/-- Uppercasing of a character, modelling the ASCII action of JavaScript
`String.prototype.toUpperCase` (`a`-`z` map to `A`-`Z`, everything else
is unchanged). -/
def jsToUpper (c : Char) : Char :=
  if 97 ≤ c.toNat && c.toNat ≤ 122 then Char.ofNat (c.toNat - 32) else c

/-- Numeric value of a digit character. -/
def charVal (c : Char) : Nat :=
  c.toNat - 48

/-- Value of a run of decimal digit characters, as computed by JavaScript
`Number` on an all-digit string. -/
def digitsVal (l : List Char) : Nat :=
  l.foldl (fun a c => 10 * a + charVal c) 0

/-- Decimal digit character for a value below 10 (JS number-to-string). -/
def digitCharC (k : Nat) : Char :=
  Char.ofNat (48 + k)

/-- Fuel-indexed decimal printing helper; with fuel at least the number
being printed it produces the standard decimal digit string. -/
def natDecimalAux : Nat → Nat → List Char
  | 0, _ => []
  | fuel + 1, n =>
    if n = 0 then []
    else natDecimalAux fuel (n / 10) ++ [digitCharC (n % 10)]

/-- Decimal representation of a natural number, modelling JavaScript
`String(n)` for a non-negative integer. -/
def natDecimal (n : Nat) : List Char :=
  if n = 0 then ['0'] else natDecimalAux (n + 1) n

/-- Left-pad a digit string to two characters with zeros, modelling
`String(n).padStart(2, "0")`. -/
def pad2 (l : List Char) : List Char :=
  List.replicate (2 - l.length) '0' ++ l

/-- Replace every run of carriage returns / line feeds by a single space,
modelling `replace(/[\r\n]+/g, " ")`; the flag records whether the
previous character was part of such a run. -/
def collapseCRLFAux : Bool → List Char → List Char
  | _, [] => []
  | prev, c :: cs =>
    if isCRLF c then
      if prev then collapseCRLFAux true cs else ' ' :: collapseCRLFAux true cs
    else c :: collapseCRLFAux false cs

/-- Replace every run of CR/LF characters by a single space. -/
def collapseCRLF (l : List Char) : List Char :=
  collapseCRLFAux false l

/-- Replace every run of whitespace by a single space, modelling
`replace(/\s+/g, " ")`. -/
def collapseWSAux : Bool → List Char → List Char
  | _, [] => []
  | prev, c :: cs =>
    if jsWS c then
      if prev then collapseWSAux true cs else ' ' :: collapseWSAux true cs
    else c :: collapseWSAux false cs

/-- Replace every run of whitespace by a single space. -/
def collapseWS (l : List Char) : List Char :=
  collapseWSAux false l

/-- Remove leading and trailing whitespace, modelling
`String.prototype.trim`. -/
def trimChars (l : List Char) : List Char :=
  ((l.dropWhile jsWS).reverse.dropWhile jsWS).reverse

/-- Remove a trailing run of separators and whitespace, modelling
`replace(/[\.\/\-\s]+$/g, "")`. -/
def stripTrailing (l : List Char) : List Char :=
  (l.reverse.dropWhile isSepOrWS).reverse

/-- Remove trailing whitespace (the right half of `trimChars`). -/
def rdropWS (l : List Char) : List Char :=
  (l.reverse.dropWhile jsWS).reverse

/-- Split on runs of separators and whitespace, dropping empty pieces,
modelling `split(/[\/\.\-\s]+/).filter(Boolean)`; `cur` holds the
reversed current piece. -/
def splitSepsAux (cur : List Char) : List Char → List (List Char)
  | [] => if cur.isEmpty then [] else [cur.reverse]
  | c :: cs =>
    if isSepOrWS c then
      if cur.isEmpty then splitSepsAux [] cs
      else cur.reverse :: splitSepsAux [] cs
    else splitSepsAux (c :: cur) cs

/-- Split on runs of separators and whitespace, dropping empty pieces. -/
def splitSeps (l : List Char) : List (List Char) :=
  splitSepsAux [] l

/-- Source `sanitizeText`: collapse CR/LF runs to one space, then trim.
The missing-value coercion `(s ?? "").toString()` is the identity on the
strings of the model. -/
def sanitizeText (s : String) : String :=
  String.mk (trimChars (collapseCRLF s.data))

/-- JavaScript `String.prototype.trim` on a `String`. -/
def trimStr (s : String) : String :=
  String.mk (trimChars s.data)

/-- Source `normalizeNeuronId`: sanitize, uppercase, then delete all
whitespace (`replace(/\s+/g, "")`). -/
def normalizeNeuronId (v : String) : String :=
  String.mk (((sanitizeText v).data.map jsToUpper).filter (fun c => !jsWS c))

/-- JavaScript `Number(string)` on the decimal-literal fragment
(optional sign, integer digits, optional fraction): `none` models NaN,
`some (m, k)` models the finite value m / 10 ^ k.  A whitespace-only
string yields 0, as `Number` does.  Hexadecimal, exponent and infinity
literals are outside the model. -/
def jsNumber (s : String) : Option (Int × Nat) :=
  let l := trimChars s.data
  if l = [] then some (0, 0)
  else
    let sgn : Int := if l.head? = some '-' then -1 else 1
    let l1 := if l.head? = some '-' ∨ l.head? = some '+' then l.tail else l
    let ip := l1.takeWhile isDigitC
    let rest := l1.dropWhile isDigitC
    match rest with
    | [] => if ip = [] then none else some (sgn * (digitsVal ip : Int), 0)
    | '.' :: fp =>
      if fp.all isDigitC ∧ (ip ≠ [] ∨ fp ≠ []) then
        some (sgn * ((digitsVal ip * 10 ^ fp.length + digitsVal fp : Nat) : Int), fp.length)
      else none
    | _ => none

/-- Truncation toward zero of the value of a JS number `(m, k)`,
modelling `Math.trunc`. -/
def jsTrunc (p : Int × Nat) : Int :=
  Int.tdiv p.1 (10 ^ p.2)

/-- Source `asIntOrNaN` on a form string: empty input is NaN, otherwise
convert with `Number` and truncate toward zero (a non-finite conversion
is NaN, i.e. `none`). -/
def asIntOrNaN (s : String) : Option Int :=
  if s = "" then none else (jsNumber s).map jsTrunc

/-- A stored JavaScript field value that may hold a string, a number or
null/undefined (legacy data); validated events store numbers. -/
inductive JSVal where
  | str (s : String)
  | num (n : Int)
  | null
deriving DecidableEq, Repr

/-- Source `asIntOrNaN` on a stored field value. -/
def asIntOrNaNVal : JSVal → Option Int
  | .str s => asIntOrNaN s
  | .num n => some n
  | .null => none

/-- Non-negative number check of the fee validation:
`Number.isNaN(n) || n < 0` fails, everything else passes. -/
def nonNegNumber (s : String) : Bool :=
  match jsNumber s with
  | some p => decide (0 ≤ p.1)
  | none => false

/-- Positive integer check of the cap / swiss-rounds validation:
`!Number.isFinite(n) || n <= 0` fails. -/
def positiveIntString (s : String) : Bool :=
  match asIntOrNaN s with
  | some n => decide (0 < n)
  | none => false

/-- Outcome of `parseDateFlexible`: failure with the reason string of the
source, or success carrying the canonical text plus the numeric fields. -/
inductive DateResult where
  | fail (reason : String)
  | ok (norm : String) (dd mm yy : Nat)
deriving DecidableEq, Repr

/-- Gregorian leap year, as realized by the JavaScript `Date` object. -/
def isLeapYear (y : Nat) : Bool :=
  (y % 4 = 0 && y % 100 ≠ 0) || y % 400 = 0

/-- Number of days in a month of the proleptic Gregorian calendar used by
the JavaScript `Date` object. -/
def daysInMonth (y m : Nat) : Nat :=
  if m = 2 then (if isLeapYear y then 29 else 28)
  else if m = 4 || m = 6 || m = 9 || m = 11 then 30
  else 31

/-- Canonical zero-padded DD/MM/YY output text of a successful parse. -/
def canonicalDateStr (dd mm yy : Nat) : String :=
  String.mk (pad2 (natDecimal dd) ++ '/' ::
    (pad2 (natDecimal mm) ++ '/' :: pad2 (natDecimal yy)))

/-- Final step of `parseDateFlexible`: build
`new Date(2000 + yy, mm - 1, dd)` and require the year/month/day
round-trip.  For 1 ≤ mm ≤ 12 and dd ≥ 1 (guaranteed by the caller) the
`Date` constructor normalizes the input exactly when dd exceeds the
length of the month, so the round-trip holds iff
`dd ≤ daysInMonth (2000 + yy) mm`; on success the canonical zero-padded
DD/MM/YY string is produced. -/
def mkDateChecked (dd mm yy : Nat) : DateResult :=
  if dd ≤ daysInMonth (2000 + yy) mm then .ok (canonicalDateStr dd mm yy) dd mm yy
  else .fail "invalid"

/-- Numeric stage of `parseDateFlexible` on the three split parts
(each part is a run of decimal digits, so `Number` is `digitsVal` and is
always finite, making the NaN branch of the source unreachable):
range-check month and day, then apply the year-width rule on the original
text of the third part (4 digits reduce modulo 100, 1 or 2 digits are
used as written, other widths fail). -/
def parseParts (p0 p1 p2 : List Char) : DateResult :=
  if digitsVal p1 < 1 || 12 < digitsVal p1 then .fail "month"
  else if digitsVal p0 < 1 || 31 < digitsVal p0 then .fail "day"
  else if p2.length = 4 then
    mkDateChecked (digitsVal p0) (digitsVal p1) (digitsVal p2 % 100)
  else if p2.length = 2 || p2.length = 1 then
    mkDateChecked (digitsVal p0) (digitsVal p1) (digitsVal p2)
  else .fail "year"

/-- Source `parseDateFlexible`: sanitize; fail on empty; remove every
character that is not a digit, separator or whitespace; collapse
whitespace runs; trim; strip trailing separators; split on separator
runs; require exactly three parts and run the numeric stage. -/
def parseDateFlexible (input : String) : DateResult :=
  if (sanitizeText input).data = [] then .fail "empty"
  else
    match splitSeps (stripTrailing (trimChars
        (collapseWS ((sanitizeText input).data.filter keepDateChar)))) with
    | [p0, p1, p2] => parseParts p0 p1 p2
    | _ => .fail "format"

/-- Source `normalizeDateInput`: canonical text on success, empty string
on failure. -/
def normalizeDateInput (input : String) : String :=
  match parseDateFlexible input with
  | .ok norm _ _ _ => norm
  | .fail _ => ""

/-- Character-level body of `isValidTimeHHMM`: the regex test
`/^\d{2}:\d{2}$/` followed by the split on the colon and the range
checks (`hh < 0` and `mm < 0` of the source are vacuous for digit
runs). -/
def timeCheck : List Char → Bool
  | [h1, h2, c, m1, m2] =>
    if isDigitC h1 && isDigitC h2 && c = ':' && isDigitC m1 && isDigitC m2 then
      !(decide (23 < digitsVal [h1, h2])) && !(decide (59 < digitsVal [m1, m2]))
    else false
  | _ => false

/-- Source `isValidTimeHHMM`: sanitize, then require exactly two digits,
a colon and two digits, with hour at most 23 and minute at most 59. -/
def isValidTimeHHMM (s : String) : Bool :=
  timeCheck (sanitizeText s).data

/-- Character-level time shape stated by the specification. -/
def shapeCheck : List Char → Bool
  | [h1, h2, c, m1, m2] =>
    isDigitC h1 && isDigitC h2 && c = ':' && isDigitC m1 && isDigitC m2 &&
      decide (digitsVal [h1, h2] ≤ 23) && decide (digitsVal [m1, m2] ≤ 59)
  | _ => false

/-- The acceptance condition claimed by the specification, on the raw
string itself without preprocessing: exactly two digits, a colon and two
digits, hour in 0..23, minute in 0..59. -/
def isHHMMShape (s : String) : Bool :=
  shapeCheck s.data

/-- Source `formatDateLabel`: the value when truthy, an em dash
placeholder otherwise. -/
def formatDateLabel (v : String) : String :=
  if v = "" then "—" else v

/-- A stored registration record. -/
structure Registration where
  id : String
  firstName : String
  lastName : String
  neuronId : String
  createdAt : Nat
deriving DecidableEq, Repr

/-- A stored event record, restricted to the fields read by the
operations under verification (identity, export header fields, player
cap, registrations and timestamps).  The purely presentational fields
(fees, times, image, description, notes) are never read by the
registration ledger and are omitted. -/
structure Event where
  id : String
  title : String
  date : String
  location : String
  playerCap : JSVal
  registrations : List Registration
  createdAt : Nat
  updatedAt : Nat
deriving DecidableEq, Repr

/-- Source `normalizeLegacyEventFields`: the legacy-field migration is
the identity on records already in the canonical shape, which is the
only shape the model's `Event` type represents. -/
def normalizeLegacyEventFields (e : Event) : Event := e

/-- Registration form input (first name, last name, neuron id). -/
structure RegInput where
  firstName : String
  lastName : String
  neuronId : String
deriving DecidableEq, Repr

/-- Capacity test of the source (`Number.isFinite(cap) && cap > 0 &&
regs.length >= cap`), shared by `addRegistration`, `submitRegistration`
and the detail view. -/
def capReached (e : Event) : Bool :=
  match asIntOrNaNVal e.playerCap with
  | some cap => decide (0 < cap) && decide (cap ≤ (e.registrations.length : Int))
  | none => false

/-- Duplicate test of the source:
`regs.some(x => normalizeNeuronId(x.neuronId) === nid)`. -/
def hasNormalizedId (regs : List Registration) (nid : String) : Bool :=
  regs.any (fun r => normalizeNeuronId r.neuronId == nid)

/-- Per-event body of the `setEvents` updater inside `addRegistration`:
unchanged when the cap is reached or the normalized id is already
present, otherwise the new registration (with normalized id, fresh id
and current timestamp) is prepended and `updatedAt` refreshed. -/
def applyRegistration (e : Event) (reg : RegInput) (now : Nat) (newId : String) : Event :=
  let ne := normalizeLegacyEventFields e
  let regs := ne.registrations
  if capReached ne then ne
  else
    let nid := normalizeNeuronId reg.neuronId
    if hasNormalizedId regs nid then ne
    else { ne with
            registrations :=
              ⟨newId, reg.firstName, reg.lastName, nid, now⟩ :: regs,
            updatedAt := now }

/-- Source `addRegistration`: map the per-event update over the stored
event list, touching only events with the given id. -/
def addRegistration (events : List Event) (eventId : String) (reg : RegInput)
    (now : Nat) (newId : String) : List Event :=
  events.map (fun e => if e.id = eventId then applyRegistration e reg now newId else e)

/-- Outcome of `submitRegistration`, one constructor per user-facing
message of the source; success carries the updated event list. -/
inductive RegResult where
  | capacityReached
  | validationError
  | duplicateRegistrant
  | ok (newEvents : List Event)
deriving DecidableEq, Repr

/-- Source `submitRegistration` on the current event and the three form
fields: capacity check first, then required fields, then the duplicate
check, then `addRegistration` over the stored list. -/
def submitRegistration (events : List Event) (ev : Event)
    (regFirst regLast regNeuronId : String) (now : Nat) (newId : String) : RegResult :=
  let e := normalizeLegacyEventFields ev
  if capReached e then .capacityReached
  else
    let fn := trimStr regFirst
    let ln := trimStr regLast
    let nid := normalizeNeuronId regNeuronId
    if fn = "" || ln = "" || nid = "" then .validationError
    else if hasNormalizedId e.registrations nid then .duplicateRegistrant
    else .ok (addRegistration events e.id ⟨fn, ln, nid⟩ now newId)

/-- Per-event body of `removeRegistrationByNeuronId`: keep only the
registrations whose normalized id differs from the (already normalized)
target and refresh `updatedAt` unconditionally. -/
def removeRegsFromEvent (e : Event) (nid : String) (now : Nat) : Event :=
  let ne := normalizeLegacyEventFields e
  { ne with
      registrations := ne.registrations.filter (fun r => normalizeNeuronId r.neuronId ≠ nid),
      updatedAt := now }

/-- Source `removeRegistrationByNeuronId`: normalize the target id, map
the per-event removal over the stored list, and report whether any
matching event lost a registration (the `removed` flag of the source). -/
def removeRegistrationByNeuronId (events : List Event) (eventId rawNeuronId : String)
    (now : Nat) : List Event × Bool :=
  let nid := normalizeNeuronId rawNeuronId
  events.foldr
    (fun e acc =>
      if e.id = eventId then
        let ne := removeRegsFromEvent e nid now
        (ne :: acc.1,
         acc.2 || decide (ne.registrations.length ≠ e.registrations.length))
      else (e :: acc.1, acc.2))
    ([], false)

/-- Outcome of `submitUnregister`, one constructor per user-facing
message of the source. -/
inductive UnregResult where
  | validationError
  | notRegistered
  | ok
deriving DecidableEq, Repr

/-- Source `submitUnregister` on the current event: require a non-empty
normalized id, require a matching registration in the current snapshot,
then the removal succeeds (the removal effect itself is
`removeRegistrationByNeuronId`). -/
def submitUnregister (ev : Event) (rawNeuronId : String) : UnregResult :=
  let e := normalizeLegacyEventFields ev
  let nid := normalizeNeuronId rawNeuronId
  if nid = "" then .validationError
  else if e.registrations.any (fun r => normalizeNeuronId r.neuronId == nid) then .ok
  else .notRegistered

/-- Raw form state of the create/edit event modal; every field is the
string held by its input control. -/
structure EventDraft where
  title : String
  date : String
  location : String
  preregFee : String
  nonRegFee : String
  playerCap : String
  swissRounds : String
  topCut : String
  regStartTime : String
  tournamentStartTime : String
  preregStartDate : String
  preregEndDate : String
  description : String
  notes : String
  imageDataUrl : String
deriving DecidableEq, Repr

/-- The single validation error surfaced by the modal submit handler,
one constructor per check of the validation sequence (the source's
distinct presence/parse messages for the same field map to the same
constructor). -/
inductive EventErr where
  | errImage
  | errTitle
  | errDate
  | errLocation
  | errPreregFeeMissing
  | errNonRegFeeMissing
  | errPlayerCapMissing
  | errSwissMissing
  | errTopCutMissing
  | errRegStartTime
  | errTournamentStartTime
  | errPreregStartDate
  | errPreregEndDate
  | errPreregFeeNum
  | errNonRegFeeNum
  | errPlayerCapNum
  | errSwissNum
  | errTopCutEmpty
deriving DecidableEq, Repr

/-- The normalized payload persisted on successful validation; fee
values are JS numbers in mantissa/fraction-digit form. -/
structure EventPayload where
  title : String
  date : String
  location : String
  preregFee : Int × Nat
  nonRegFee : Int × Nat
  playerCap : Int
  swissRounds : Int
  topCut : String
  regStartTime : String
  tournamentStartTime : String
  preregStartDate : String
  preregEndDate : String
  description : String
  notes : String
  imageDataUrl : String
deriving DecidableEq, Repr

/-- The `submit` handler of the event modal, translated check for check
from the source (the fee sign test `n < 0` is the mantissa sign test in
the mantissa/fraction-digit representation). -/
def submitEvent (d : EventDraft) : Except EventErr EventPayload :=
  if d.imageDataUrl = "" then .error .errImage
  else if trimStr d.title = "" then .error .errTitle
  else if sanitizeText d.date = "" then .error .errDate
  else if normalizeDateInput (sanitizeText d.date) = "" then .error .errDate
  else if trimStr d.location = "" then .error .errLocation
  else if d.preregFee = "" then .error .errPreregFeeMissing
  else if d.nonRegFee = "" then .error .errNonRegFeeMissing
  else if d.playerCap = "" then .error .errPlayerCapMissing
  else if d.swissRounds = "" then .error .errSwissMissing
  else if d.topCut = "" then .error .errTopCutMissing
  else if d.regStartTime = "" then .error .errRegStartTime
  else if !isValidTimeHHMM d.regStartTime then .error .errRegStartTime
  else if d.tournamentStartTime = "" then .error .errTournamentStartTime
  else if !isValidTimeHHMM d.tournamentStartTime then .error .errTournamentStartTime
  else if d.preregStartDate = "" then .error .errPreregStartDate
  else if normalizeDateInput d.preregStartDate = "" then .error .errPreregStartDate
  else if d.preregEndDate = "" then .error .errPreregEndDate
  else if normalizeDateInput d.preregEndDate = "" then .error .errPreregEndDate
  else
    match jsNumber d.preregFee with
    | none => .error .errPreregFeeNum
    | some preFee =>
      if preFee.1 < 0 then .error .errPreregFeeNum
      else
        match jsNumber d.nonRegFee with
        | none => .error .errNonRegFeeNum
        | some nonFee =>
          if nonFee.1 < 0 then .error .errNonRegFeeNum
          else
            match asIntOrNaN d.playerCap with
            | none => .error .errPlayerCapNum
            | some capNum =>
              if capNum ≤ 0 then .error .errPlayerCapNum
              else
                match asIntOrNaN d.swissRounds with
                | none => .error .errSwissNum
                | some swissNum =>
                  if swissNum ≤ 0 then .error .errSwissNum
                  else if sanitizeText d.topCut = "" then .error .errTopCutEmpty
                  else .ok ⟨trimStr d.title, normalizeDateInput (sanitizeText d.date),
                    trimStr d.location, preFee, nonFee, capNum, swissNum,
                    sanitizeText d.topCut, sanitizeText d.regStartTime,
                    sanitizeText d.tournamentStartTime,
                    normalizeDateInput d.preregStartDate,
                    normalizeDateInput d.preregEndDate, trimStr d.description,
                    trimStr d.notes, d.imageDataUrl⟩

/-- Success test on a date-parse outcome. -/
def DateResult.isOk : DateResult → Bool
  | .ok _ _ _ _ => true
  | .fail _ => false

/-- The validation sequence exactly as the specification lists it: one
pass/fail check per entry, in order, paired with the error it surfaces. -/
def specChecks : List ((EventDraft → Bool) × EventErr) :=
  [ (fun d => decide (d.imageDataUrl ≠ ""), .errImage),
    (fun d => decide (trimStr d.title ≠ ""), .errTitle),
    (fun d => (parseDateFlexible d.date).isOk, .errDate),
    (fun d => decide (trimStr d.location ≠ ""), .errLocation),
    (fun d => decide (d.preregFee ≠ ""), .errPreregFeeMissing),
    (fun d => decide (d.nonRegFee ≠ ""), .errNonRegFeeMissing),
    (fun d => decide (d.playerCap ≠ ""), .errPlayerCapMissing),
    (fun d => decide (d.swissRounds ≠ ""), .errSwissMissing),
    (fun d => decide (d.topCut ≠ ""), .errTopCutMissing),
    (fun d => decide (d.regStartTime ≠ "") && isValidTimeHHMM d.regStartTime, .errRegStartTime),
    (fun d => decide (d.tournamentStartTime ≠ "") && isValidTimeHHMM d.tournamentStartTime,
      .errTournamentStartTime),
    (fun d => (parseDateFlexible d.preregStartDate).isOk, .errPreregStartDate),
    (fun d => (parseDateFlexible d.preregEndDate).isOk, .errPreregEndDate),
    (fun d => nonNegNumber d.preregFee, .errPreregFeeNum),
    (fun d => nonNegNumber d.nonRegFee, .errNonRegFeeNum),
    (fun d => positiveIntString d.playerCap, .errPlayerCapNum),
    (fun d => positiveIntString d.swissRounds, .errSwissNum),
    (fun d => decide (sanitizeText d.topCut ≠ ""), .errTopCutEmpty) ]

/-- First failing check of the validation sequence, if any. -/
def specFirstFailure (d : EventDraft) : Option EventErr :=
  (specChecks.find? (fun p => !p.1 d)).map (fun p => p.2)

/-- Error projection of a validation outcome. -/
def errOpt : Except EventErr EventPayload → Option EventErr
  | .error e => some e
  | .ok _ => none

/-- One line of the registrant export:
`firstName-lastName-neuronId` through `sanitizeText`. -/
def registrationLine (r : Registration) : String :=
  sanitizeText r.firstName ++ "-" ++ sanitizeText r.lastName ++ "-" ++ sanitizeText r.neuronId

/-- JavaScript `Array.prototype.join` with a separator. -/
def joinSep (sep : String) : List String → String
  | [] => ""
  | [x] => x
  | x :: xs => x ++ sep ++ joinSep sep xs

/-- Concatenation of a list of strings. -/
def strJoinAll : List String → String
  | [] => ""
  | x :: xs => x ++ strJoinAll xs

/-- Source `exportRegistrationsTxt`, restricted to the produced text
content (the download side effect is outside the model): header line
`title | date | location`, then the registrations oldest-first
(`slice().reverse()`), joined by newlines, with a trailing newline when
any line exists. -/
def exportRegistrationsTxt (eventRaw : Event) : String :=
  let event := normalizeLegacyEventFields eventRaw
  let lines := (event.registrations.reverse).map registrationLine
  let header := sanitizeText event.title ++ " | " ++ formatDateLabel event.date
      ++ " | " ++ sanitizeText event.location ++ "\n"
  header ++ joinSep "\n" lines ++ (if lines.length ≠ 0 then "\n" else "")

/-- ASCII lowercase range, the condition uppercased by `jsToUpper`. -/
def isLowerC (c : Char) : Bool :=
  97 ≤ c.toNat && c.toNat ≤ 122

/-- Sample event with a player cap of 2 and no registrations. -/
def evCap2 : Event :=
  ⟨"e1", "Cup", "01/03/26", "Zagreb", JSVal.num 2, [], 0, 0⟩

/-- Sample event with a player cap of 1 holding a single registration
whose normalized id is A1 (so it is simultaneously full and would
collide with a repeated A1). -/
def evFullDup : Event :=
  ⟨"e1", "Cup", "01/03/26", "Zagreb", JSVal.num 1,
    [⟨"r1", "Ana", "Babic", "A1", 1⟩], 0, 0⟩

/-- Sample event without a cap and no registrations. -/
def evNoCap : Event :=
  ⟨"e1", "Cup", "01/03/26", "Zagreb", JSVal.str "", [], 0, 0⟩

/-- Sample event of the export test: one registration Ana Babić N1. -/
def evExport : Event :=
  ⟨"e1", "Cup", "01/03/26", "Zagreb", JSVal.num 2,
    [⟨"r1", "Ana", "Babić", "N1", 0⟩], 0, 0⟩

/-- The cap-2 sample event after the first successful registration. -/
def evCap2a : Event :=
  { evCap2 with
      registrations := [⟨"r1", "Ana", "Babic", "A1", 1⟩],
      updatedAt := 1 }

/-- The cap-2 sample event after the second successful registration. -/
def evCap2b : Event :=
  { evCap2 with
      registrations := [⟨"r2", "Ivo", "Horvat", "B2", 2⟩, ⟨"r1", "Ana", "Babic", "A1", 1⟩],
      updatedAt := 2 }

/-- Sample event with room left (cap 5) already holding a registration
with normalized id A1. -/
def evDupOpen : Event :=
  ⟨"e1", "Cup", "01/03/26", "Zagreb", JSVal.num 5,
    [⟨"r1", "Ana", "Babic", "A1", 1⟩], 0, 0⟩

/-- The no-cap sample event after registering ABC123. -/
def evReg : Event :=
  { evNoCap with
      registrations := [⟨"r1", "Ana", "Babic", "ABC123", 1⟩],
      updatedAt := 1 }

/-- A draft event passing every validation check. -/
def completeDraft : EventDraft :=
  ⟨"Cup", "01/03/26", "Zagreb", "10", "15", "64", "6", "Top 8",
    "09:30", "10:00", "01/02/26", "09/02/26", "", "",
    "data:image/png;base64,Zm9v"⟩

section CharLemmas

lemma jsWS_true_toNat {c : Char} (h : jsWS c = true) :
    c.toNat = 32 ∨ c.toNat = 9 ∨ c.toNat = 10 ∨ c.toNat = 13 ∨
      c.toNat = 11 ∨ c.toNat = 12 := by
  simp only [jsWS, Bool.or_eq_true, decide_eq_true_eq] at h
  rcases h with ((((h | h) | h) | h) | h) | h <;> subst h <;> simp

lemma isCRLF_true_toNat {c : Char} (h : isCRLF c = true) :
    c.toNat = 13 ∨ c.toNat = 10 := by
  simp only [isCRLF, Bool.or_eq_true, decide_eq_true_eq] at h
  rcases h with h | h <;> subst h <;> simp

lemma isSepOrWS_true_toNat {c : Char} (h : isSepOrWS c = true) :
    c.toNat = 47 ∨ c.toNat = 46 ∨ c.toNat = 45 ∨ c.toNat = 32 ∨ c.toNat = 9 ∨
      c.toNat = 10 ∨ c.toNat = 13 ∨ c.toNat = 11 ∨ c.toNat = 12 := by
  simp only [isSepOrWS, isSepChar, jsWS, Bool.or_eq_true, decide_eq_true_eq] at h
  rcases h with h | h
  · rcases h with (h | h) | h <;> subst h <;> simp
  · rcases h with ((((h | h) | h) | h) | h) | h <;> subst h <;> simp

lemma jsWS_of_toNat_ge {c : Char} (h : 48 ≤ c.toNat) : jsWS c = false := by
  cases hw : jsWS c
  · rfl
  · rcases jsWS_true_toNat hw with h' | h' | h' | h' | h' | h' <;> omega

lemma jsWS_of_CRLF {c : Char} (h : isCRLF c = true) : jsWS c = true := by
  simp only [isCRLF, Bool.or_eq_true, decide_eq_true_eq] at h
  rcases h with h | h <;> subst h <;> decide

lemma isCRLF_of_digit {c : Char} (h : isDigitC c = true) : isCRLF c = false := by
  simp only [isDigitC, Bool.and_eq_true, decide_eq_true_eq] at h
  cases hw : isCRLF c
  · rfl
  · rcases isCRLF_true_toNat hw with h' | h' <;> omega

lemma jsWS_of_digit {c : Char} (h : isDigitC c = true) : jsWS c = false := by
  simp only [isDigitC, Bool.and_eq_true, decide_eq_true_eq] at h
  exact jsWS_of_toNat_ge h.1

lemma isSepOrWS_of_digit {c : Char} (h : isDigitC c = true) : isSepOrWS c = false := by
  simp only [isDigitC, Bool.and_eq_true, decide_eq_true_eq] at h
  cases hw : isSepOrWS c
  · rfl
  · rcases isSepOrWS_true_toNat hw with h' | h' | h' | h' | h' | h' | h' | h' | h' <;> omega

lemma isCRLF_of_sep {c : Char} (h : isSepChar c = true) : isCRLF c = false := by
  simp only [isSepChar, Bool.or_eq_true, decide_eq_true_eq] at h
  rcases h with (h | h) | h <;> subst h <;> decide

lemma jsWS_of_sep {c : Char} (h : isSepChar c = true) : jsWS c = false := by
  simp only [isSepChar, Bool.or_eq_true, decide_eq_true_eq] at h
  rcases h with (h | h) | h <;> subst h <;> decide

lemma jsWS_jsToUpper (c : Char) : jsWS (jsToUpper c) = jsWS c := by
  unfold jsToUpper
  split
  · next h =>
    simp only [Bool.and_eq_true, decide_eq_true_eq] at h
    obtain ⟨h1, h2⟩ := h
    have hc : jsWS c = false := jsWS_of_toNat_ge (by omega)
    rw [hc]
    have h65 : 65 ≤ c.toNat - 32 := by omega
    have h90 : c.toNat - 32 ≤ 90 := by omega
    generalize c.toNat - 32 = k at h65 h90
    interval_cases k <;> decide
  · rfl

lemma jsToUpper_not_lower (c : Char) :
    (97 ≤ (jsToUpper c).toNat && (jsToUpper c).toNat ≤ 122) = false := by
  unfold jsToUpper
  split
  · next h =>
    simp only [Bool.and_eq_true, decide_eq_true_eq] at h
    obtain ⟨h1, h2⟩ := h
    have h65 : 65 ≤ c.toNat - 32 := by omega
    have h90 : c.toNat - 32 ≤ 90 := by omega
    generalize c.toNat - 32 = k at h65 h90
    interval_cases k <;> decide
  · next h => simpa using h

lemma jsToUpper_eq_self (c : Char)
    (h : (97 ≤ c.toNat && c.toNat ≤ 122) = false) : jsToUpper c = c := by
  unfold jsToUpper
  rw [h]
  rfl

lemma jsToUpper_idem (c : Char) : jsToUpper (jsToUpper c) = jsToUpper c :=
  jsToUpper_eq_self _ (jsToUpper_not_lower c)

end CharLemmas

section NormalizeLemmas

lemma filter_nws_collapseCRLFAux (b : Bool) (l : List Char) :
    (collapseCRLFAux b l).filter (fun c => !jsWS c) = l.filter (fun c => !jsWS c) := by
  induction l generalizing b with
  | nil => rfl
  | cons c cs ih =>
    by_cases h : isCRLF c = true
    · have hws : jsWS c = true := jsWS_of_CRLF h
      have hsp : jsWS ' ' = true := by decide
      cases b <;>
        simp [collapseCRLFAux, h, List.filter_cons, hws, hsp, ih]
    · have h' : isCRLF c = false := by simpa using h
      simp [collapseCRLFAux, h', List.filter_cons, ih]

lemma filter_nws_dropWhile (l : List Char) :
    (l.dropWhile jsWS).filter (fun c => !jsWS c) = l.filter (fun c => !jsWS c) := by
  induction l with
  | nil => rfl
  | cons c cs ih =>
    by_cases h : jsWS c = true
    · simp [List.dropWhile_cons, h, List.filter_cons, ih]
    · have h' : jsWS c = false := by simpa using h
      simp [List.dropWhile_cons, h', List.filter_cons]

lemma filter_nws_trimChars (l : List Char) :
    (trimChars l).filter (fun c => !jsWS c) = l.filter (fun c => !jsWS c) := by
  unfold trimChars
  rw [List.filter_reverse, filter_nws_dropWhile, List.filter_reverse,
    List.reverse_reverse, filter_nws_dropWhile]

lemma normalizeNeuronId_eq (s : String) :
    normalizeNeuronId s = String.mk ((s.data.filter (fun c => !jsWS c)).map jsToUpper) := by
  unfold normalizeNeuronId sanitizeText
  congr 1
  show (((trimChars (collapseCRLF s.data)).map jsToUpper).filter (fun c => !jsWS c)) = _
  rw [List.filter_map]
  have hcomp : ((fun c => !jsWS c) ∘ jsToUpper) = (fun c => !jsWS c) := by
    funext c
    simp [Function.comp, jsWS_jsToUpper]
  rw [hcomp, filter_nws_trimChars]
  unfold collapseCRLF
  rw [filter_nws_collapseCRLFAux]

end NormalizeLemmas

section ListHelp

lemma data_mk (l : List Char) : (String.mk l).data = l := rfl

lemma strOfData {s t : String} (h : s.data = t.data) : s = t := by
  cases s
  cases t
  cases h
  rfl

lemma normMap_idem (l : List Char) :
    ((((l.filter (fun c => !jsWS c)).map jsToUpper).filter (fun c => !jsWS c)).map jsToUpper)
      = (l.filter (fun c => !jsWS c)).map jsToUpper := by
  rw [List.filter_map]
  have hcomp : ((fun c => !jsWS c) ∘ jsToUpper) = (fun c => !jsWS c) := by
    funext c
    simp [Function.comp, jsWS_jsToUpper]
  rw [hcomp, List.filter_filter]
  have hand : (fun a => ((!jsWS a) && !jsWS a)) = (fun c => !jsWS c) := by
    funext a
    cases jsWS a <;> rfl
  rw [hand, List.map_map]
  have hup : (jsToUpper ∘ jsToUpper) = jsToUpper := by
    funext c
    exact jsToUpper_idem c
  rw [hup]

lemma normalizeNeuronId_idem (s : String) :
    normalizeNeuronId (normalizeNeuronId s) = normalizeNeuronId s := by
  rw [normalizeNeuronId_eq (normalizeNeuronId s), normalizeNeuronId_eq s, data_mk]
  exact congrArg String.mk (normMap_idem s.data)

lemma removeReg_cons (e : Event) (es : List Event) (eventId u : String) (now : Nat) :
    removeRegistrationByNeuronId (e :: es) eventId u now =
      if e.id = eventId then
        (removeRegsFromEvent e (normalizeNeuronId u) now
            :: (removeRegistrationByNeuronId es eventId u now).1,
          (removeRegistrationByNeuronId es eventId u now).2 ||
            decide ((removeRegsFromEvent e (normalizeNeuronId u) now).registrations.length
              ≠ e.registrations.length))
      else (e :: (removeRegistrationByNeuronId es eventId u now).1,
            (removeRegistrationByNeuronId es eventId u now).2) := by
  simp only [removeRegistrationByNeuronId, List.foldr_cons]

lemma joinNl (l : List String) :
    joinSep "\n" l ++ (if l.length ≠ 0 then "\n" else "")
      = strJoinAll (l.map (fun x => x ++ "\n")) := by
  induction l with
  | nil => rfl
  | cons x xs ih =>
    cases xs with
    | nil => simp [joinSep, strJoinAll]
    | cons y ys =>
      simp only [joinSep, List.map_cons, strJoinAll, List.length_cons] at ih ⊢
      rw [← ih]
      simp [String.append_assoc]

lemma timeCheck_eq_shapeCheck (l : List Char) : timeCheck l = shapeCheck l := by
  match l with
  | [] => rfl
  | [_] => rfl
  | [_, _] => rfl
  | [_, _, _] => rfl
  | [_, _, _, _] => rfl
  | _ :: _ :: _ :: _ :: _ :: _ :: _ => rfl
  | [h1, h2, c, m1, m2] =>
    simp only [timeCheck, shapeCheck]
    by_cases hd : (isDigitC h1 && isDigitC h2 && (decide (c = ':')) && isDigitC m1
        && isDigitC m2) = true
    · rw [if_pos hd, hd, Bool.true_and]
      have hhh : (!decide (23 < digitsVal [h1, h2])) = decide (digitsVal [h1, h2] ≤ 23) := by
        rw [← decide_not]
        simp [Nat.not_lt]
      have hmm : (!decide (59 < digitsVal [m1, m2])) = decide (digitsVal [m1, m2] ≤ 59) := by
        rw [← decide_not]
        simp [Nat.not_lt]
      rw [hhh, hmm]
    · rw [if_neg hd]
      have hd' : (isDigitC h1 && isDigitC h2 && (decide (c = ':')) && isDigitC m1
          && isDigitC m2) = false := by simpa using hd
      rw [hd', Bool.false_and, Bool.false_and]

end ListHelp

section DropWhileLemmas

lemma dropWhile_all_neg {p : Char → Bool} {l : List Char}
    (h : ∀ c ∈ l, p c = false) : l.dropWhile p = l := by
  cases l with
  | nil => rfl
  | cons c cs =>
    rw [List.dropWhile_cons, if_neg (by simp [h c (List.mem_cons_self c cs)])]

lemma dropWhile_append_all {p : Char → Bool} {a : List Char} (b : List Char)
    (h : ∀ c ∈ a, p c = true) : (a ++ b).dropWhile p = b.dropWhile p := by
  induction a with
  | nil => rfl
  | cons c cs ih =>
    rw [List.cons_append, List.dropWhile_cons, if_pos (h c (List.mem_cons_self c cs))]
    exact ih (fun x hx => h x (List.mem_cons_of_mem c hx))

lemma dropWhile_idem {p : Char → Bool} {l : List Char} :
    (l.dropWhile p).dropWhile p = l.dropWhile p := by
  induction l with
  | nil => rfl
  | cons c cs ih =>
    by_cases h : p c = true
    · rw [List.dropWhile_cons, if_pos h]
      exact ih
    · rw [List.dropWhile_cons, if_neg h, List.dropWhile_cons, if_neg h]

lemma trimChars_id {l : List Char} (h : ∀ c ∈ l, jsWS c = false) : trimChars l = l := by
  unfold trimChars
  rw [dropWhile_all_neg h, dropWhile_all_neg (fun c hc => h c (List.mem_reverse.1 hc)),
    List.reverse_reverse]

lemma collapseCRLFAux_id :
    ∀ (l : List Char) (b), (∀ c ∈ l, isCRLF c = false) → collapseCRLFAux b l = l := by
  intro l
  induction l with
  | nil => intro b _; rfl
  | cons c cs ih =>
    intro b h
    have hc : isCRLF c = false := h c (List.mem_cons_self c cs)
    have ih' := ih false (fun x hx => h x (List.mem_cons_of_mem c hx))
    simp [collapseCRLFAux, hc, ih']

lemma collapseWSAux_id :
    ∀ (l : List Char) (b), (∀ c ∈ l, jsWS c = false) → collapseWSAux b l = l := by
  intro l
  induction l with
  | nil => intro b _; rfl
  | cons c cs ih =>
    intro b h
    have hc : jsWS c = false := h c (List.mem_cons_self c cs)
    have ih' := ih false (fun x hx => h x (List.mem_cons_of_mem c hx))
    simp [collapseWSAux, hc, ih']

lemma collapseCRLFAux_no_crlf :
    ∀ (l : List Char) (b), ∀ x ∈ collapseCRLFAux b l, isCRLF x = false := by
  intro l
  induction l with
  | nil => intro b x hx; cases hx
  | cons c cs ih =>
    intro b x hx
    by_cases hc : isCRLF c = true
    · cases b with
      | true =>
        rw [collapseCRLFAux, if_pos hc, if_pos rfl] at hx
        exact ih true x hx
      | false =>
        rw [collapseCRLFAux, if_pos hc, if_neg (by simp)] at hx
        rcases List.mem_cons.1 hx with rfl | hx'
        · decide
        · exact ih true x hx'
    · have hc' : isCRLF c = false := by simpa using hc
      rw [collapseCRLFAux, if_neg (by simp [hc'])] at hx
      rcases List.mem_cons.1 hx with rfl | hx'
      · exact hc'
      · exact ih false x hx'

lemma mem_trimChars {x : Char} {l : List Char} (h : x ∈ trimChars l) : x ∈ l := by
  unfold trimChars at h
  rw [List.mem_reverse] at h
  have h2 := (List.dropWhile_sublist jsWS).subset h
  rw [List.mem_reverse] at h2
  exact (List.dropWhile_sublist jsWS).subset h2

lemma rdropWS_idem (l : List Char) : rdropWS (rdropWS l) = rdropWS l := by
  unfold rdropWS
  rw [List.reverse_reverse, dropWhile_idem]

lemma rdropWS_front (l : List Char) : ∃ t, rdropWS l ++ t = l := by
  obtain ⟨t, ht⟩ := (List.dropWhile_suffix (l := l.reverse) jsWS)
  refine ⟨t.reverse, ?_⟩
  have h2 := congrArg List.reverse ht
  rw [List.reverse_append, List.reverse_reverse] at h2
  exact h2

lemma trimChars_idem (l : List Char) : trimChars (trimChars l) = trimChars l := by
  have hform : ∀ m : List Char, trimChars m = rdropWS (m.dropWhile jsWS) := fun _ => rfl
  have hu : (l.dropWhile jsWS).dropWhile jsWS = l.dropWhile jsWS := dropWhile_idem
  have hA : (trimChars l).dropWhile jsWS = trimChars l := by
    rw [hform l]
    obtain ⟨w, hw⟩ := rdropWS_front (l.dropWhile jsWS)
    cases hT : rdropWS (l.dropWhile jsWS) with
    | nil => rfl
    | cons c cs =>
      rw [hT] at hw
      by_cases hp : jsWS c = true
      · exfalso
        have hlen := congrArg List.length hu
        rw [← hw] at hu
        rw [List.cons_append, List.dropWhile_cons, if_pos hp] at hu
        have hsub := (List.dropWhile_suffix (l := cs ++ w) jsWS).length_le
        have := congrArg List.length hu
        simp only [List.length_cons, List.length_append] at this hsub
        omega
      · rw [List.dropWhile_cons, if_neg (by simp [hp])]
  rw [hform (trimChars l), hA, hform l, rdropWS_idem]

lemma sanitizeText_idem (s : String) : sanitizeText (sanitizeText s) = sanitizeText s := by
  unfold sanitizeText collapseCRLF
  rw [data_mk]
  have hnc : ∀ x ∈ trimChars (collapseCRLFAux false s.data), isCRLF x = false :=
    fun x hx => collapseCRLFAux_no_crlf s.data false x (mem_trimChars hx)
  rw [collapseCRLFAux_id _ false hnc, trimChars_idem]

end DropWhileLemmas

section DigitLemmas

lemma foldl_digit_shift (l : List Char) :
    ∀ acc, l.foldl (fun a c => 10 * a + charVal c) acc
      = acc * 10 ^ l.length + digitsVal l := by
  induction l with
  | nil => intro acc; simp [digitsVal]
  | cons c cs ih =>
    intro acc
    have hdv : digitsVal (c :: cs) = charVal c * 10 ^ cs.length + digitsVal cs := by
      show List.foldl _ (10 * 0 + charVal c) cs = _
      rw [show 10 * 0 + charVal c = charVal c by ring, ih (charVal c)]
    simp only [List.foldl_cons, List.length_cons]
    rw [ih (10 * acc + charVal c), hdv]
    ring

lemma digitsVal_append (x y : List Char) :
    digitsVal (x ++ y) = digitsVal x * 10 ^ y.length + digitsVal y := by
  show List.foldl _ 0 (x ++ y) = _
  rw [List.foldl_append]
  exact foldl_digit_shift y _

lemma charVal_digitCharC {k : Nat} (h : k < 10) : charVal (digitCharC k) = k := by
  interval_cases k <;> decide

lemma isDigitC_digitCharC {k : Nat} (h : k < 10) : isDigitC (digitCharC k) = true := by
  interval_cases k <;> decide

lemma natDecimalAux_val : ∀ fuel n, n ≤ fuel → digitsVal (natDecimalAux fuel n) = n := by
  intro fuel
  induction fuel with
  | zero =>
    intro n h
    interval_cases n
    rfl
  | succ f ih =>
    intro n h
    by_cases h0 : n = 0
    · subst h0; rfl
    · show digitsVal (if n = 0 then [] else _) = n
      rw [if_neg h0, digitsVal_append]
      have hlt : n / 10 < n := Nat.div_lt_self (Nat.pos_of_ne_zero h0) (by norm_num)
      rw [ih (n / 10) (by omega)]
      have hone : digitsVal [digitCharC (n % 10)] = n % 10 := by
        show 10 * 0 + charVal (digitCharC (n % 10)) = n % 10
        rw [charVal_digitCharC (Nat.mod_lt n (by norm_num))]
        ring
      rw [hone]
      simp only [List.length_singleton]
      omega

lemma natDecimalAux_digits :
    ∀ fuel n, n ≤ fuel → ∀ x ∈ natDecimalAux fuel n, isDigitC x = true := by
  intro fuel
  induction fuel with
  | zero =>
    intro n h x hx
    interval_cases n
    cases hx
  | succ f ih =>
    intro n h x hx
    by_cases h0 : n = 0
    · subst h0; cases hx
    · rw [show natDecimalAux (f + 1) n
          = natDecimalAux f (n / 10) ++ [digitCharC (n % 10)] by
            show (if n = 0 then [] else _) = _
            rw [if_neg h0]] at hx
      have hlt : n / 10 < n := Nat.div_lt_self (Nat.pos_of_ne_zero h0) (by norm_num)
      rcases List.mem_append.1 hx with hx' | hx'
      · exact ih (n / 10) (by omega) x hx'
      · rcases List.mem_cons.1 hx' with rfl | hx''
        · exact isDigitC_digitCharC (Nat.mod_lt n (by norm_num))
        · cases hx''

lemma natDecimalAux_len :
    ∀ fuel n k, n ≤ fuel → n < 10 ^ k → (natDecimalAux fuel n).length ≤ k := by
  intro fuel
  induction fuel with
  | zero =>
    intro n k h _
    interval_cases n
    simp [natDecimalAux]
  | succ f ih =>
    intro n k h hk
    by_cases h0 : n = 0
    · subst h0; simp [natDecimalAux]
    · rw [show natDecimalAux (f + 1) n
          = natDecimalAux f (n / 10) ++ [digitCharC (n % 10)] by
            show (if n = 0 then [] else _) = _
            rw [if_neg h0]]
      rw [List.length_append]
      cases k with
      | zero =>
        exfalso
        have : n < 1 := hk
        omega
      | succ k' =>
        have hdiv : n / 10 < 10 ^ k' := by
          rw [Nat.div_lt_iff_lt_mul (by norm_num : (0 : Nat) < 10)]
          calc n < 10 ^ (k' + 1) := hk
            _ = 10 ^ k' * 10 := by ring
        have hlt : n / 10 < n := Nat.div_lt_self (Nat.pos_of_ne_zero h0) (by norm_num)
        have hrec := ih (n / 10) k' (by omega) hdiv
        simp only [List.length_singleton]
        omega

lemma natDecimal_val (n : Nat) : digitsVal (natDecimal n) = n := by
  by_cases h0 : n = 0
  · subst h0; decide
  · show digitsVal (if n = 0 then ['0'] else _) = n
    rw [if_neg h0]
    exact natDecimalAux_val (n + 1) n (by omega)

lemma natDecimal_digits (n : Nat) : ∀ x ∈ natDecimal n, isDigitC x = true := by
  by_cases h0 : n = 0
  · subst h0
    intro x hx
    rcases List.mem_cons.1 hx with rfl | hx'
    · decide
    · cases hx'
  · show ∀ x ∈ (if n = 0 then ['0'] else _), _
    rw [if_neg h0]
    exact natDecimalAux_digits (n + 1) n (by omega)

lemma natDecimal_ne_nil (n : Nat) : natDecimal n ≠ [] := by
  by_cases h0 : n = 0
  · subst h0; decide
  · show (if n = 0 then ['0'] else natDecimalAux (n + 1) n) ≠ []
    rw [if_neg h0]
    show (if n = 0 then [] else natDecimalAux n (n / 10) ++ [digitCharC (n % 10)]) ≠ []
    rw [if_neg h0]
    intro hc
    have := congrArg List.length hc
    simp at this

lemma natDecimal_len_le_two {n : Nat} (h : n ≤ 99) : (natDecimal n).length ≤ 2 := by
  by_cases h0 : n = 0
  · subst h0; decide
  · show (if n = 0 then ['0'] else _).length ≤ 2
    rw [if_neg h0]
    exact natDecimalAux_len (n + 1) n 2 (by omega) (by omega)

lemma digitsVal_replicate_zero : ∀ k, digitsVal (List.replicate k '0') = 0 := by
  intro k
  induction k with
  | zero => rfl
  | succ k' ih =>
    show List.foldl _ (10 * 0 + charVal '0') (List.replicate k' '0') = 0
    rw [show 10 * 0 + charVal '0' = 0 by decide]
    exact ih

lemma pad2_val (l : List Char) : digitsVal (pad2 l) = digitsVal l := by
  unfold pad2
  rw [digitsVal_append, digitsVal_replicate_zero]
  ring

lemma pad2_len {l : List Char} (h : l.length ≤ 2) : (pad2 l).length = 2 := by
  unfold pad2
  rw [List.length_append, List.length_replicate]
  omega

lemma pad2_digits {l : List Char} (h : ∀ x ∈ l, isDigitC x = true) :
    ∀ x ∈ pad2 l, isDigitC x = true := by
  intro x hx
  rcases List.mem_append.1 hx with hx' | hx'
  · rw [List.eq_of_mem_replicate hx']
    decide
  · exact h x hx'

lemma pad2_ne_nil (l : List Char) : pad2 l ≠ [] := by
  intro hc
  have h := congrArg List.length hc
  unfold pad2 at h
  rw [List.length_append, List.length_replicate] at h
  simp only [List.length_nil] at h
  omega

end DigitLemmas

section SplitLemmas

lemma stripTrailing_append_seps (l t : List Char)
    (h : ∀ x ∈ t, isSepOrWS x = true) : stripTrailing (l ++ t) = stripTrailing l := by
  unfold stripTrailing
  rw [List.reverse_append, dropWhile_append_all _ (fun x hx => h x (List.mem_reverse.1 hx))]

lemma stripTrailing_last (l : List Char) (d : Char)
    (h : isSepOrWS d = false) : stripTrailing (l ++ [d]) = l ++ [d] := by
  unfold stripTrailing
  rw [List.reverse_append]
  show ((d :: l.reverse).dropWhile isSepOrWS).reverse = _
  rw [List.dropWhile_cons, if_neg (by simp [h])]
  simp

lemma splitSepsAux_chunk :
    ∀ (a rest : List Char) (cur), (∀ c ∈ a, isSepOrWS c = false) →
      splitSepsAux cur (a ++ rest) = splitSepsAux (a.reverse ++ cur) rest := by
  intro a
  induction a with
  | nil => intro rest cur _; simp
  | cons c cs ih =>
    intro rest cur h
    have hc : isSepOrWS c = false := h c (List.mem_cons_self c cs)
    show splitSepsAux cur (c :: (cs ++ rest)) = _
    rw [show splitSepsAux cur (c :: (cs ++ rest))
        = splitSepsAux (c :: cur) (cs ++ rest) by
          simp [splitSepsAux, hc]]
    rw [ih rest (c :: cur) (fun x hx => h x (List.mem_cons_of_mem c hx))]
    simp

lemma splitSepsAux_sep (x : Char) (rest : List Char) (cur : List Char)
    (hx : isSepOrWS x = true) (hcur : cur ≠ []) :
    splitSepsAux cur (x :: rest) = cur.reverse :: splitSepsAux [] rest := by
  have hne : cur.isEmpty = false := by
    cases cur with
    | nil => exact absurd rfl hcur
    | cons _ _ => rfl
  simp [splitSepsAux, hx, hne]

lemma splitSepsAux_last (cur : List Char) (hcur : cur ≠ []) :
    splitSepsAux cur [] = [cur.reverse] := by
  have hne : cur.isEmpty = false := by
    cases cur with
    | nil => exact absurd rfl hcur
    | cons _ _ => rfl
  simp [splitSepsAux, hne]

lemma splitSepsAux_whole (c : List Char) (h : ∀ x ∈ c, isSepOrWS x = false)
    (hc0 : c ≠ []) : splitSepsAux [] c = [c] := by
  have h1 : splitSepsAux ([] : List Char) (c ++ []) = splitSepsAux (c.reverse ++ []) [] :=
    splitSepsAux_chunk c [] [] h
  rw [List.append_nil] at h1
  rw [h1, List.append_nil, splitSepsAux_last _ (by simp [hc0]), List.reverse_reverse]

lemma splitSeps_three (a b c : List Char) (s1 s2 : Char)
    (ha : ∀ x ∈ a, isSepOrWS x = false) (ha0 : a ≠ [])
    (hb : ∀ x ∈ b, isSepOrWS x = false) (hb0 : b ≠ [])
    (hc : ∀ x ∈ c, isSepOrWS x = false) (hc0 : c ≠ [])
    (hs1 : isSepOrWS s1 = true) (hs2 : isSepOrWS s2 = true) :
    splitSeps (a ++ s1 :: (b ++ s2 :: c)) = [a, b, c] := by
  unfold splitSeps
  rw [splitSepsAux_chunk a _ [] ha,
    splitSepsAux_sep s1 _ _ hs1 (by simp [ha0]),
    splitSepsAux_chunk b _ [] hb,
    splitSepsAux_sep s2 _ _ hs2 (by simp [hb0]),
    splitSepsAux_whole c hc hc0]
  simp

end SplitLemmas

section ParseLemmas

lemma parse_three_parts (a b c t : List Char) (s1 s2 : Char)
    (ha : ∀ x ∈ a, isDigitC x = true) (ha0 : a ≠ [])
    (hb : ∀ x ∈ b, isDigitC x = true) (hb0 : b ≠ [])
    (hc : ∀ x ∈ c, isDigitC x = true) (hc0 : c ≠ [])
    (hs1 : isSepChar s1 = true) (hs2 : isSepChar s2 = true)
    (ht : ∀ x ∈ t, isSepChar x = true) :
    parseDateFlexible (String.mk (a ++ s1 :: (b ++ s2 :: (c ++ t)))) = parseParts a b c := by
  have hmem : ∀ x ∈ a ++ s1 :: (b ++ s2 :: (c ++ t)),
      isDigitC x = true ∨ isSepChar x = true := by
    intro x hx
    simp only [List.mem_append, List.mem_cons] at hx
    rcases hx with hx | rfl | hx | rfl | hx | hx
    · exact .inl (ha x hx)
    · exact .inr hs1
    · exact .inl (hb x hx)
    · exact .inr hs2
    · exact .inl (hc x hx)
    · exact .inr (ht x hx)
  have hnoCR : ∀ x ∈ a ++ s1 :: (b ++ s2 :: (c ++ t)), isCRLF x = false := by
    intro x hx
    rcases hmem x hx with h | h
    · exact isCRLF_of_digit h
    · exact isCRLF_of_sep h
  have hnoWS : ∀ x ∈ a ++ s1 :: (b ++ s2 :: (c ++ t)), jsWS x = false := by
    intro x hx
    rcases hmem x hx with h | h
    · exact jsWS_of_digit h
    · exact jsWS_of_sep h
  have hkeep : ∀ x ∈ a ++ s1 :: (b ++ s2 :: (c ++ t)), keepDateChar x = true := by
    intro x hx
    rcases hmem x hx with h | h <;> simp [keepDateChar, h]
  have hne : a ++ s1 :: (b ++ s2 :: (c ++ t)) ≠ [] := by
    cases a with
    | nil => exact absurd rfl ha0
    | cons _ _ => simp
  have hsan : sanitizeText (String.mk (a ++ s1 :: (b ++ s2 :: (c ++ t))))
      = String.mk (a ++ s1 :: (b ++ s2 :: (c ++ t))) := by
    unfold sanitizeText collapseCRLF
    rw [data_mk, collapseCRLFAux_id _ false hnoCR, trimChars_id hnoWS]
  unfold parseDateFlexible
  rw [hsan, data_mk, if_neg hne]
  rw [List.filter_eq_self.2 hkeep]
  rw [show collapseWS (a ++ s1 :: (b ++ s2 :: (c ++ t)))
      = a ++ s1 :: (b ++ s2 :: (c ++ t)) from collapseWSAux_id _ false hnoWS]
  rw [trimChars_id hnoWS]
  have hstrip : stripTrailing (a ++ s1 :: (b ++ s2 :: (c ++ t)))
      = a ++ s1 :: (b ++ s2 :: c) := by
    have heq : a ++ s1 :: (b ++ s2 :: (c ++ t)) = (a ++ s1 :: (b ++ s2 :: c)) ++ t := by
      simp
    rw [heq, stripTrailing_append_seps _ t
      (fun x hx => by simp [isSepOrWS, ht x hx])]
    have hc' : c.dropLast ++ [c.getLast hc0] = c := List.dropLast_append_getLast hc0
    have heq2 : a ++ s1 :: (b ++ s2 :: c)
        = (a ++ s1 :: (b ++ s2 :: c.dropLast)) ++ [c.getLast hc0] := by
      conv_lhs => rw [← hc']
      simp
    rw [heq2, stripTrailing_last _ _
      (isSepOrWS_of_digit (hc _ (List.getLast_mem hc0)))]
  rw [hstrip]
  rw [splitSeps_three a b c s1 s2
    (fun x hx => isSepOrWS_of_digit (ha x hx)) ha0
    (fun x hx => isSepOrWS_of_digit (hb x hx)) hb0
    (fun x hx => isSepOrWS_of_digit (hc x hx)) hc0
    (by simp [isSepOrWS, hs1]) (by simp [isSepOrWS, hs2])]

lemma parse_three_parts_nt (a b c : List Char) (s1 s2 : Char)
    (ha : ∀ x ∈ a, isDigitC x = true) (ha0 : a ≠ [])
    (hb : ∀ x ∈ b, isDigitC x = true) (hb0 : b ≠ [])
    (hc : ∀ x ∈ c, isDigitC x = true) (hc0 : c ≠ [])
    (hs1 : isSepChar s1 = true) (hs2 : isSepChar s2 = true) :
    parseDateFlexible (String.mk (a ++ s1 :: (b ++ s2 :: c))) = parseParts a b c := by
  have h := parse_three_parts a b c [] s1 s2 ha ha0 hb hb0 hc hc0 hs1 hs2
    (by intro x hx; cases hx)
  rwa [List.append_nil] at h

lemma daysInMonth_le_31 (y m : Nat) : daysInMonth y m ≤ 31 := by
  unfold daysInMonth
  split_ifs <;> omega

lemma parseParts_eval_short (a b c : List Char) (d m yy : Nat)
    (hva : digitsVal a = d) (hvb : digitsVal b = m) (hvc : digitsVal c = yy)
    (hlen : c.length = 2 ∨ c.length = 1)
    (hm1 : 1 ≤ m) (hm2 : m ≤ 12) (hd1 : 1 ≤ d)
    (hdays : d ≤ daysInMonth (2000 + yy) m) :
    parseParts a b c = .ok (canonicalDateStr d m yy) d m yy := by
  have hd31 : d ≤ 31 := le_trans hdays (daysInMonth_le_31 _ _)
  unfold parseParts
  rw [hva, hvb, hvc]
  rw [if_neg (by simp only [Bool.or_eq_true, decide_eq_true_eq]; omega)]
  rw [if_neg (by simp only [Bool.or_eq_true, decide_eq_true_eq]; omega)]
  rw [if_neg (by omega : ¬ c.length = 4)]
  rw [if_pos (by simp only [Bool.or_eq_true, decide_eq_true_eq]; omega)]
  unfold mkDateChecked
  rw [if_pos hdays]

lemma parseParts_eval_year4 (a b : List Char) (d m yy : Nat)
    (hva : digitsVal a = d) (hvb : digitsVal b = m) (hyy : yy ≤ 99)
    (hm1 : 1 ≤ m) (hm2 : m ≤ 12) (hd1 : 1 ≤ d)
    (hdays : d ≤ daysInMonth (2000 + yy) m) :
    parseParts a b ('2' :: '0' :: pad2 (natDecimal yy))
      = .ok (canonicalDateStr d m yy) d m yy := by
  have hd31 : d ≤ 31 := le_trans hdays (daysInMonth_le_31 _ _)
  have hlen : ('2' :: '0' :: pad2 (natDecimal yy)).length = 4 := by
    simp [pad2_len (natDecimal_len_le_two hyy)]
  have hval : digitsVal ('2' :: '0' :: pad2 (natDecimal yy)) = 2000 + yy := by
    show List.foldl _ 0 _ = _
    rw [List.foldl_cons, List.foldl_cons,
      show (10 * (10 * 0 + charVal '2') + charVal '0') = 20 by decide,
      foldl_digit_shift, pad2_len (natDecimal_len_le_two hyy), pad2_val, natDecimal_val]
    norm_num
  unfold parseParts
  rw [hva, hvb, hval]
  rw [if_neg (by simp only [Bool.or_eq_true, decide_eq_true_eq]; omega)]
  rw [if_neg (by simp only [Bool.or_eq_true, decide_eq_true_eq]; omega)]
  rw [if_pos hlen]
  rw [show (2000 + yy) % 100 = yy by omega]
  unfold mkDateChecked
  rw [if_pos hdays]

lemma mkDateChecked_ok {a b c : Nat} {n : String} {d m y : Nat}
    (h : mkDateChecked a b c = .ok n d m y) :
    n = canonicalDateStr d m y ∧ a = d ∧ b = m ∧ c = y
      ∧ d ≤ daysInMonth (2000 + y) m := by
  unfold mkDateChecked at h
  by_cases hc : a ≤ daysInMonth (2000 + c) b
  · rw [if_pos hc] at h
    injection h with hn hd hm hy
    subst n
    subst d
    subst m
    subst y
    exact ⟨rfl, rfl, rfl, rfl, hc⟩
  · rw [if_neg hc] at h
    cases h

lemma parse_ok_facts {s n : String} {d m y : Nat}
    (h : parseDateFlexible s = .ok n d m y) :
    n = canonicalDateStr d m y ∧ 1 ≤ d ∧ d ≤ daysInMonth (2000 + y) m
      ∧ 1 ≤ m ∧ m ≤ 12 := by
  unfold parseDateFlexible at h
  by_cases he : (sanitizeText s).data = []
  · rw [if_pos he] at h
    cases h
  · rw [if_neg he] at h
    split at h
    · rename_i p0 p1 p2 heq
      unfold parseParts at h
      by_cases h1 : (decide (digitsVal p1 < 1) || decide (12 < digitsVal p1)) = true
      · rw [if_pos h1] at h
        cases h
      · rw [if_neg h1] at h
        by_cases h2 : (decide (digitsVal p0 < 1) || decide (31 < digitsVal p0)) = true
        · rw [if_pos h2] at h
          cases h
        · rw [if_neg h2] at h
          simp only [Bool.or_eq_true, decide_eq_true_eq, not_or, not_lt] at h1 h2
          by_cases h3 : p2.length = 4
          · rw [if_pos h3] at h
            obtain ⟨hn, hd, hm, hy, hdays⟩ := mkDateChecked_ok h
            subst d
            subst m
            exact ⟨hn, by omega, hdays, by omega, by omega⟩
          · rw [if_neg h3] at h
            by_cases h4 : (decide (p2.length = 2) || decide (p2.length = 1)) = true
            · rw [if_pos h4] at h
              obtain ⟨hn, hd, hm, hy, hdays⟩ := mkDateChecked_ok h
              subst d
              subst m
              exact ⟨hn, by omega, hdays, by omega, by omega⟩
            · rw [if_neg h4] at h
              cases h
    · cases h

end ParseLemmas

section ValidationLemmas

lemma string_mk_ne_empty {c : Char} {t : List Char} : String.mk (c :: t) ≠ "" := by
  intro h
  have h2 := congrArg String.data h
  rw [data_mk] at h2
  have h3 : ("" : String).data = [] := rfl
  rw [h3] at h2
  cases h2

lemma canonicalDateStr_ne_empty (d m y : Nat) : canonicalDateStr d m y ≠ "" := by
  unfold canonicalDateStr
  rcases List.exists_cons_of_ne_nil (pad2_ne_nil (natDecimal d)) with ⟨c, t, hct⟩
  rw [hct, List.cons_append]
  exact string_mk_ne_empty

lemma normalizeDateInput_empty_iff (s : String) :
    normalizeDateInput s = "" ↔ (parseDateFlexible s).isOk = false := by
  unfold normalizeDateInput
  cases h : parseDateFlexible s with
  | fail r => simp [DateResult.isOk]
  | ok n a b c =>
    have hne : n ≠ "" := by
      rw [(parse_ok_facts h).1]
      exact canonicalDateStr_ne_empty a b c
    simp [DateResult.isOk, hne]

lemma parse_sanitize (s : String) :
    parseDateFlexible (sanitizeText s) = parseDateFlexible s := by
  unfold parseDateFlexible
  rw [sanitizeText_idem]

lemma parse_empty_of_sanitize {s : String} (h : sanitizeText s = "") :
    parseDateFlexible s = .fail "empty" := by
  have hd : (sanitizeText s).data = [] := by rw [h]
  unfold parseDateFlexible
  rw [if_pos hd]

lemma ff_fail {d : EventDraft} {p : EventDraft → Bool} {e : EventErr}
    {rest : List ((EventDraft → Bool) × EventErr)} (h : p d = false) :
    ((((p, e) :: rest).find? (fun q => !q.1 d)).map (fun q => q.2)) = some e := by
  rw [List.find?_cons_of_pos _ (by simp [h])]
  rfl

lemma ff_pass {d : EventDraft} {p : EventDraft → Bool} {e : EventErr}
    {rest : List ((EventDraft → Bool) × EventErr)} (h : p d = true) :
    ((((p, e) :: rest).find? (fun q => !q.1 d)).map (fun q => q.2))
      = ((rest.find? (fun q => !q.1 d)).map (fun q => q.2)) := by
  rw [List.find?_cons_of_neg _ (by simp [h])]

end ValidationLemmas

section Claims

/-- C3: identifier normalization is idempotent, its output contains no
whitespace character, and every ASCII lowercase letter of the input
appears uppercased in the output. -/
theorem normalize_identifier_c3 (s : String) :
    normalizeNeuronId (normalizeNeuronId s) = normalizeNeuronId s
    ∧ (∀ c ∈ (normalizeNeuronId s).data, jsWS c = false)
    ∧ (∀ c ∈ s.data, isLowerC c = true → jsToUpper c ∈ (normalizeNeuronId s).data) := by
  refine ⟨normalizeNeuronId_idem s, ?_, ?_⟩
  · intro c hc
    rw [normalizeNeuronId_eq s, data_mk] at hc
    rcases List.mem_map.1 hc with ⟨c', hc', rfl⟩
    have h2 := (List.mem_filter.1 hc').2
    rw [jsWS_jsToUpper]
    simpa using h2
  · intro c hc hlow
    rw [normalizeNeuronId_eq s, data_mk]
    refine List.mem_map.2 ⟨c, List.mem_filter.2 ⟨hc, ?_⟩, rfl⟩
    simp only [isLowerC, Bool.and_eq_true, decide_eq_true_eq] at hlow
    simp [jsWS_of_toNat_ge (show 48 ≤ c.toNat by omega)]

/-- Witness for C3 at the concrete input with a space, a line feed and
lowercase letters. -/
theorem normalize_identifier_c3_witness :
    normalizeNeuronId (normalizeNeuronId "ab c\n1") = normalizeNeuronId "ab c\n1"
    ∧ jsToUpper 'a' ∈ (normalizeNeuronId "ab c\n1").data :=
  ⟨(normalize_identifier_c3 "ab c\n1").1,
    (normalize_identifier_c3 "ab c\n1").2.2 'a' (by decide) (by decide)⟩

/-- C8: the registrant export is a header line followed by one
newline-terminated line per registration, and on the sample event the
produced text is exactly the expected string. -/
theorem export_format_c8 :
    (∀ e : Event, exportRegistrationsTxt e =
      sanitizeText e.title ++ " | " ++ formatDateLabel e.date ++ " | "
        ++ sanitizeText e.location ++ "\n"
        ++ strJoinAll ((e.registrations.reverse.map registrationLine).map (fun x => x ++ "\n")))
    ∧ exportRegistrationsTxt evExport = "Cup | 01/03/26 | Zagreb\nAna-Babić-N1\n" := by
  constructor
  · intro e
    show _ ++ joinSep "\n" _ ++ _ = _
    rw [String.append_assoc, joinNl]
    simp only [normalizeLegacyEventFields]
  · decide

/-- C10: removal rewrites every event carrying the target id through the
per-event removal (which refreshes updatedAt unconditionally) and leaves
all other events untouched; when no registration of a matching event has
the target normalized id, the call reports false and the matching events
are rewritten with only updatedAt changed. -/
theorem remove_updates_timestamp_c10 (events : List Event) (eventId u : String) (now : Nat) :
    (removeRegistrationByNeuronId events eventId u now).1
      = events.map (fun e =>
          if e.id = eventId then removeRegsFromEvent e (normalizeNeuronId u) now else e)
    ∧ ((∀ e ∈ events, e.id = eventId →
          ∀ r ∈ e.registrations, normalizeNeuronId r.neuronId ≠ normalizeNeuronId u) →
        (removeRegistrationByNeuronId events eventId u now).2 = false
        ∧ (removeRegistrationByNeuronId events eventId u now).1
            = events.map (fun e => if e.id = eventId then { e with updatedAt := now } else e)) := by
  induction events with
  | nil => exact ⟨rfl, fun _ => ⟨rfl, rfl⟩⟩
  | cons e es ih =>
    rw [removeReg_cons]
    constructor
    · by_cases h : e.id = eventId
      · rw [if_pos h, List.map_cons, if_pos h]
        exact congrArg _ ih.1
      · rw [if_neg h, List.map_cons, if_neg h]
        exact congrArg _ ih.1
    · intro hnone
      have hes := ih.2 (fun x hx => hnone x (List.mem_cons_of_mem _ hx))
      have he := hnone e (List.mem_cons_self e es)
      by_cases h : e.id = eventId
      · have hkeep : e.registrations.filter
            (fun r => normalizeNeuronId r.neuronId ≠ normalizeNeuronId u) = e.registrations := by
          refine List.filter_eq_self.2 (fun r hr => ?_)
          simpa using he h r hr
        have hne : removeRegsFromEvent e (normalizeNeuronId u) now = { e with updatedAt := now } := by
          simp only [removeRegsFromEvent, normalizeLegacyEventFields]
          rw [hkeep]
        rw [if_pos h]
        constructor
        · show ((removeRegistrationByNeuronId es eventId u now).2 || _) = false
          rw [hes.1, hne]
          simp
        · show _ :: (removeRegistrationByNeuronId es eventId u now).1 = _
          rw [List.map_cons, if_pos h, hne, hes.2]
      · rw [if_neg h]
        constructor
        · exact hes.1
        · show _ :: (removeRegistrationByNeuronId es eventId u now).1 = _
          rw [List.map_cons, if_neg h, hes.2]

/-- Witness for C10: a no-match unregister against the full sample event
reports false yet rewrites the event with the current timestamp. -/
theorem remove_updates_timestamp_c10_witness :
    (removeRegistrationByNeuronId [evFullDup] "e1" "ZZ" 5).2 = false
    ∧ (removeRegistrationByNeuronId [evFullDup] "e1" "ZZ" 5).1
        = [evFullDup].map (fun e => if e.id = "e1" then { e with updatedAt := 5 } else e) :=
  (remove_updates_timestamp_c10 [evFullDup] "e1" "ZZ" 5).2 (by decide)

/-- C1: with a positive finite coerced cap, registration is rejected
with CapacityReached exactly when the count has reached the cap (and the
event record, hence its registration list, is unchanged); below the cap
the capacity rejection never fires; and on the concrete cap-2 event two
distinct registrants succeed while a third fails. -/
theorem capacity_enforcement_c1 (events : List Event) (ev : Event) (cap : Int)
    (fn ln nid : String) (now : Nat) (newId : String)
    (hcap : asIntOrNaNVal ev.playerCap = some cap) (hpos : 0 < cap) :
    ((cap ≤ (ev.registrations.length : Int) →
        submitRegistration events ev fn ln nid now newId = .capacityReached
        ∧ applyRegistration ev ⟨fn, ln, nid⟩ now newId = ev)
      ∧ ((ev.registrations.length : Int) < cap →
        submitRegistration events ev fn ln nid now newId ≠ .capacityReached))
    ∧ (submitRegistration [evCap2] evCap2 "Ana" "Babic" "A1" 1 "r1" = .ok [evCap2a]
      ∧ submitRegistration [evCap2a] evCap2a "Ivo" "Horvat" "B2" 2 "r2" = .ok [evCap2b]
      ∧ submitRegistration [evCap2b] evCap2b "Pia" "Kos" "C3" 3 "r3" = .capacityReached
      ∧ normalizeNeuronId "A1" ≠ normalizeNeuronId "B2") := by
  constructor
  · constructor
    · intro hfull
      have hcr : capReached ev = true := by
        unfold capReached
        rw [hcap]
        simp [hpos, hfull]
      constructor
      · simp [submitRegistration, normalizeLegacyEventFields, hcr]
      · simp [applyRegistration, normalizeLegacyEventFields, hcr]
    · intro hlt
      have hcr : capReached ev = false := by
        unfold capReached
        rw [hcap]
        have hn : ¬ (cap ≤ (ev.registrations.length : Int)) := not_le.2 hlt
        simp [hn]
      simp only [submitRegistration, normalizeLegacyEventFields, hcr,
        Bool.false_eq_true, if_false]
      split
      · simp
      · split
        · simp
        · simp
  · exact ⟨by decide, by decide, by decide, by decide⟩

/-- Witness for C1 at the full sample event (cap 1, one registration)
and at a concrete below-cap instance. -/
theorem capacity_enforcement_c1_witness :
    (submitRegistration [evFullDup] evFullDup "Pia" "Kos" "X9" 2 "r2" = .capacityReached
      ∧ applyRegistration evFullDup ⟨"Pia", "Kos", "X9"⟩ 2 "r2" = evFullDup)
    ∧ submitRegistration [evCap2] evCap2 "Pia" "Kos" "X9" 2 "r2" ≠ .capacityReached :=
  ⟨(capacity_enforcement_c1 [evFullDup] evFullDup 1 "Pia" "Kos" "X9" 2 "r2"
      (by decide) (by decide)).1.1 (by decide),
    (capacity_enforcement_c1 [evCap2] evCap2 2 "Pia" "Kos" "X9" 2 "r2"
      (by decide) (by decide)).1.2 (by decide)⟩

/-- Counterexample for C2 as stated: on an event that is simultaneously
full and already carries the repeated normalized id, the second
registration fails with CapacityReached, not DuplicateRegistrant. -/
theorem duplicate_claim_counterexample_c2 :
    hasNormalizedId evFullDup.registrations (normalizeNeuronId "A1") = true
    ∧ submitRegistration [evFullDup] evFullDup "Ana" "Babic" "A1" 2 "r2" = .capacityReached
    ∧ submitRegistration [evFullDup] evFullDup "Ana" "Babic" "A1" 2 "r2"
        ≠ .duplicateRegistrant :=
  ⟨by decide, by decide, by decide⟩

/-- C2 (amended): when capacity is not reached and the submitted fields
are non-empty, a repeated normalized id is rejected with
DuplicateRegistrant and the event is unchanged; moreover the per-event
registration update always preserves distinctness of the normalized
ids, so no two registrations of one event ever share one. -/
theorem duplicate_prevention_amended_c2 (events : List Event) (ev : Event)
    (fn ln nid : String) (now : Nat) (newId : String)
    (hcap : capReached ev = false)
    (hfn : trimStr fn ≠ "") (hln : trimStr ln ≠ "") (hnid : normalizeNeuronId nid ≠ "")
    (hdup : hasNormalizedId ev.registrations (normalizeNeuronId nid) = true) :
    (submitRegistration events ev fn ln nid now newId = .duplicateRegistrant
      ∧ applyRegistration ev ⟨fn, ln, nid⟩ now newId = ev)
    ∧ ∀ (e : Event) (reg : RegInput) (n : Nat) (i : String),
        (e.registrations.map (fun r => normalizeNeuronId r.neuronId)).Nodup →
        ((applyRegistration e reg n i).registrations.map
            (fun r => normalizeNeuronId r.neuronId)).Nodup := by
  constructor
  · constructor
    · simp [submitRegistration, normalizeLegacyEventFields, hcap, hfn, hln, hnid, hdup]
    · simp [applyRegistration, normalizeLegacyEventFields, hcap, hdup]
  · intro e reg n i hnd
    simp only [applyRegistration, normalizeLegacyEventFields]
    by_cases hc : capReached e = true
    · rw [if_pos hc]
      exact hnd
    · rw [if_neg hc]
      by_cases hd : hasNormalizedId e.registrations (normalizeNeuronId reg.neuronId) = true
      · rw [if_pos hd]
        exact hnd
      · rw [if_neg hd]
        simp only [List.map_cons, List.nodup_cons]
        refine ⟨?_, hnd⟩
        rw [normalizeNeuronId_idem]
        intro hmem
        rcases List.mem_map.1 hmem with ⟨r, hr, heq⟩
        apply hd
        unfold hasNormalizedId
        exact List.any_eq_true.2 ⟨r, hr, by simp [heq]⟩

/-- Witness for C2 at a concrete open event with a duplicate (the
repeated id even differs in case and spacing). -/
theorem duplicate_prevention_amended_c2_witness :
    submitRegistration [evDupOpen] evDupOpen "Ana" "Babic" "a 1" 2 "r2"
        = .duplicateRegistrant
    ∧ applyRegistration evDupOpen ⟨"Ana", "Babic", "a 1"⟩ 2 "r2" = evDupOpen :=
  (duplicate_prevention_amended_c2 [evDupOpen] evDupOpen "Ana" "Babic" "a 1" 2 "r2"
    (by decide) (by decide) (by decide) (by decide) (by decide)).1

/-- C9: after a successful registration of identifier s, unregistering
with any string u normalizing like s succeeds, and the removal deletes
exactly the new registration, restoring the original registration list
(every registration with a different normalized id stays). -/
theorem unregister_roundtrip_c9 (events : List Event) (ev : Event)
    (fn ln s u : String) (now now2 : Nat) (newId : String) (evs' : List Event)
    (hok : submitRegistration events ev fn ln s now newId = .ok evs')
    (hu : normalizeNeuronId u = normalizeNeuronId s) :
    submitUnregister
        (applyRegistration ev ⟨trimStr fn, trimStr ln, normalizeNeuronId s⟩ now newId) u
      = .ok
    ∧ (removeRegsFromEvent
        (applyRegistration ev ⟨trimStr fn, trimStr ln, normalizeNeuronId s⟩ now newId)
        (normalizeNeuronId u) now2).registrations = ev.registrations := by
  have hinv : capReached ev = false
      ∧ (trimStr fn ≠ "" ∧ trimStr ln ≠ "" ∧ normalizeNeuronId s ≠ "")
      ∧ hasNormalizedId ev.registrations (normalizeNeuronId s) = false := by
    simp only [submitRegistration, normalizeLegacyEventFields] at hok
    split_ifs at hok with h1 h2 h3
    have h2' : (¬trimStr fn = "" ∧ ¬trimStr ln = "") ∧ ¬normalizeNeuronId s = "" := by
      simpa using h2
    exact ⟨by simpa using h1, ⟨h2'.1.1, h2'.1.2, h2'.2⟩, by simpa using h3⟩
  obtain ⟨hcr, ⟨hfn, hln, hns⟩, hnd⟩ := hinv
  have hkeep : ev.registrations.filter
      (fun r => normalizeNeuronId r.neuronId ≠ normalizeNeuronId s) = ev.registrations := by
    refine List.filter_eq_self.2 (fun r hr => ?_)
    simp only [hasNormalizedId] at hnd
    have hr' := List.any_eq_false.1 hnd r hr
    simpa using hr'
  have hev' : applyRegistration ev ⟨trimStr fn, trimStr ln, normalizeNeuronId s⟩ now newId
      = { ev with
            registrations :=
              ⟨newId, trimStr fn, trimStr ln, normalizeNeuronId s, now⟩ :: ev.registrations,
            updatedAt := now } := by
    simp only [applyRegistration, normalizeLegacyEventFields]
    rw [if_neg (by simp [hcr])]
    rw [normalizeNeuronId_idem, if_neg (by simp [hnd])]
  rw [hev']
  constructor
  · simp only [submitUnregister, normalizeLegacyEventFields, hu]
    rw [if_neg hns]
    rw [if_pos ?hany]
    case hany =>
      simp [List.any_cons, normalizeNeuronId_idem]
  · simp only [removeRegsFromEvent, normalizeLegacyEventFields, hu]
    rw [List.filter_cons]
    rw [if_neg (by simp [normalizeNeuronId_idem])]
    exact hkeep

/-- Witness for C9: register ABC123 on the open sample event, then
unregister with the differently-cased, spaced spelling. -/
theorem unregister_roundtrip_c9_witness :
    submitUnregister
        (applyRegistration evNoCap
          ⟨trimStr "Ana", trimStr "Babic", normalizeNeuronId "ABC123"⟩ 1 "r1") "abc 123"
      = .ok
    ∧ (removeRegsFromEvent
        (applyRegistration evNoCap
          ⟨trimStr "Ana", trimStr "Babic", normalizeNeuronId "ABC123"⟩ 1 "r1")
        (normalizeNeuronId "abc 123") 7).registrations = evNoCap.registrations :=
  unregister_roundtrip_c9 [evNoCap] evNoCap "Ana" "Babic" "ABC123" "abc 123" 1 7 "r1"
    [evReg] (by decide) (by decide)

/-- Counterexample for C6 as stated: a string with a leading space is
accepted (the source sanitizes before the shape test) although it is not
of the two-digit colon two-digit form. -/
theorem time_validation_counterexample_c6 :
    isValidTimeHHMM " 23:59" = true ∧ isHHMMShape " 23:59" = false :=
  ⟨by decide, by decide⟩

/-- C6 (amended): the validator accepts exactly the strings whose
sanitized form (CR/LF runs collapsed, then trimmed) is two digits, a
colon and two digits with hour at most 23 and minute at most 59; the
three concrete verdicts of the claim hold. -/
theorem time_validation_amended_c6 :
    (∀ s : String, isValidTimeHHMM s = isHHMMShape (sanitizeText s))
    ∧ isValidTimeHHMM "24:00" = false
    ∧ isValidTimeHHMM "23:59" = true
    ∧ isValidTimeHHMM "9:30" = false :=
  ⟨fun s => timeCheck_eq_shapeCheck (sanitizeText s).data, by decide, by decide, by decide⟩

/-- C4: every valid calendar date of the century 2000-2099 written as
DD/MM/YYYY, DD.MM.YYYY. (trailing dot), DD-MM-YY, D/M/YY or DD.MM.YY
parses successfully, and all spellings produce the identical canonical
zero-padded DD/MM/YY output with the year reduced modulo 100.  The day
is spelled with `pad2 (natDecimal d)` (zero-padded) or `natDecimal d`
(unpadded), and the four-digit year of 2000 + yy is the two characters
20 followed by the zero-padded two-digit yy. -/
theorem date_canonicalization_c4 (d m yy : Nat) (hd1 : 1 ≤ d) (hm1 : 1 ≤ m)
    (hm2 : m ≤ 12) (hyy : yy ≤ 99) (hdays : d ≤ daysInMonth (2000 + yy) m) :
    parseDateFlexible (String.mk (pad2 (natDecimal d) ++ '/' ::
        (pad2 (natDecimal m) ++ '/' :: ('2' :: '0' :: pad2 (natDecimal yy)))))
      = .ok (canonicalDateStr d m yy) d m yy
    ∧ parseDateFlexible (String.mk (pad2 (natDecimal d) ++ '.' ::
        (pad2 (natDecimal m) ++ '.' :: (('2' :: '0' :: pad2 (natDecimal yy)) ++ ['.']))))
      = .ok (canonicalDateStr d m yy) d m yy
    ∧ parseDateFlexible (String.mk (pad2 (natDecimal d) ++ '-' ::
        (pad2 (natDecimal m) ++ '-' :: pad2 (natDecimal yy))))
      = .ok (canonicalDateStr d m yy) d m yy
    ∧ parseDateFlexible (String.mk (natDecimal d ++ '/' ::
        (natDecimal m ++ '/' :: pad2 (natDecimal yy))))
      = .ok (canonicalDateStr d m yy) d m yy
    ∧ parseDateFlexible (String.mk (pad2 (natDecimal d) ++ '.' ::
        (pad2 (natDecimal m) ++ '.' :: pad2 (natDecimal yy))))
      = .ok (canonicalDateStr d m yy) d m yy := by
  have hpd := pad2_digits (natDecimal_digits d)
  have hpm := pad2_digits (natDecimal_digits m)
  have hpy := pad2_digits (natDecimal_digits yy)
  have hy4 : ∀ x ∈ '2' :: '0' :: pad2 (natDecimal yy), isDigitC x = true := by
    intro x hx
    rcases List.mem_cons.1 hx with rfl | hx'
    · decide
    · rcases List.mem_cons.1 hx' with rfl | hx''
      · decide
      · exact hpy x hx''
  have hvd : digitsVal (pad2 (natDecimal d)) = d := by rw [pad2_val, natDecimal_val]
  have hvm : digitsVal (pad2 (natDecimal m)) = m := by rw [pad2_val, natDecimal_val]
  have hvy : digitsVal (pad2 (natDecimal yy)) = yy := by rw [pad2_val, natDecimal_val]
  have hylen : (pad2 (natDecimal yy)).length = 2 := pad2_len (natDecimal_len_le_two hyy)
  refine ⟨?_, ?_, ?_, ?_, ?_⟩
  · rw [parse_three_parts_nt _ _ _ '/' '/' hpd (pad2_ne_nil _) hpm (pad2_ne_nil _)
      hy4 (by simp) (by decide) (by decide)]
    exact parseParts_eval_year4 _ _ d m yy hvd hvm hyy hm1 hm2 hd1 hdays
  · rw [parse_three_parts _ _ _ ['.'] '.' '.' hpd (pad2_ne_nil _) hpm (pad2_ne_nil _)
      hy4 (by simp) (by decide) (by decide)
      (by intro x hx; simp only [List.mem_singleton] at hx; subst hx; decide)]
    exact parseParts_eval_year4 _ _ d m yy hvd hvm hyy hm1 hm2 hd1 hdays
  · rw [parse_three_parts_nt _ _ _ '-' '-' hpd (pad2_ne_nil _) hpm (pad2_ne_nil _)
      hpy (pad2_ne_nil _) (by decide) (by decide)]
    exact parseParts_eval_short _ _ _ d m yy hvd hvm hvy (Or.inl hylen) hm1 hm2 hd1 hdays
  · rw [parse_three_parts_nt _ _ _ '/' '/' (natDecimal_digits d) (natDecimal_ne_nil _)
      (natDecimal_digits m) (natDecimal_ne_nil _) hpy (pad2_ne_nil _)
      (by decide) (by decide)]
    exact parseParts_eval_short _ _ _ d m yy (natDecimal_val d) (natDecimal_val m) hvy
      (Or.inl hylen) hm1 hm2 hd1 hdays
  · rw [parse_three_parts_nt _ _ _ '.' '.' hpd (pad2_ne_nil _) hpm (pad2_ne_nil _)
      hpy (pad2_ne_nil _) (by decide) (by decide)]
    exact parseParts_eval_short _ _ _ d m yy hvd hvm hvy (Or.inl hylen) hm1 hm2 hd1 hdays

/-- Witness for C4 at 1 March 2026: the five spellings, including the
unpadded 1/3/26 and the four-digit 01/03/2026, all canonicalize to
01/03/26. -/
theorem date_canonicalization_c4_witness :
    parseDateFlexible "01/03/2026" = .ok "01/03/26" 1 3 26
    ∧ parseDateFlexible "01.03.2026." = .ok "01/03/26" 1 3 26
    ∧ parseDateFlexible "01-03-26" = .ok "01/03/26" 1 3 26
    ∧ parseDateFlexible "1/3/26" = .ok "01/03/26" 1 3 26
    ∧ parseDateFlexible "01.03.26" = .ok "01/03/26" 1 3 26 :=
  date_canonicalization_c4 1 3 26 (by decide) (by decide) (by decide) (by decide) (by decide)

/-- C5: a successful parse always names a real calendar date (the day
fits the month of year 2000 + yy, month in range), so an input whose
parts pass the range checks without naming a real date is rejected; in
particular 31/02/26 and 29/02/23 fail while 29/02/24 succeeds. -/
theorem impossible_dates_c5 :
    (∀ (s n : String) (d m y : Nat), parseDateFlexible s = .ok n d m y →
      1 ≤ d ∧ d ≤ daysInMonth (2000 + y) m ∧ 1 ≤ m ∧ m ≤ 12)
    ∧ parseDateFlexible "31/02/26" = .fail "invalid"
    ∧ parseDateFlexible "29/02/24" = .ok "29/02/24" 29 2 24
    ∧ parseDateFlexible "29/02/23" = .fail "invalid" := by
  refine ⟨?_, by decide, by decide, by decide⟩
  intro s n d m y h
  obtain ⟨_, h1, h2, h3, h4⟩ := parse_ok_facts h
  exact ⟨h1, h2, h3, h4⟩

/-- Witness for C5 at the leap-day input 29/02/24. -/
theorem impossible_dates_c5_witness :
    1 ≤ 29 ∧ 29 ≤ daysInMonth (2000 + 24) 2 ∧ 1 ≤ 2 ∧ 2 ≤ 12 :=
  impossible_dates_c5.1 "29/02/24" "29/02/24" 29 2 24 (by decide)

/-- C7: the modal submit handler is fail-fast and surfaces exactly the
first failing check of the specified 18-step sequence (never an
aggregate); the complete sample draft passes, the same draft with the
image removed is rejected with the image error, and a player cap of 0 or
-3 is rejected with the positive-integer cap error. -/
theorem event_validation_fail_fast_c7 :
    (∀ d : EventDraft, errOpt (submitEvent d) = specFirstFailure d)
    ∧ errOpt (submitEvent completeDraft) = none
    ∧ errOpt (submitEvent { completeDraft with imageDataUrl := "" }) = some .errImage
    ∧ errOpt (submitEvent { completeDraft with playerCap := "0" }) = some .errPlayerCapNum
    ∧ errOpt (submitEvent { completeDraft with playerCap := "-3" }) = some .errPlayerCapNum := by
  refine ⟨?_, by decide, by decide, by decide, by decide⟩
  intro d
  unfold submitEvent specFirstFailure specChecks
  by_cases h1 : d.imageDataUrl = ""
  · rw [if_pos h1, ff_fail (by simp [h1])]
    rfl
  rw [if_neg h1, ff_pass (by simp [h1])]
  by_cases h2 : trimStr d.title = ""
  · rw [if_pos h2, ff_fail (by simp [h2])]
    rfl
  rw [if_neg h2, ff_pass (by simp [h2])]
  by_cases h3 : (parseDateFlexible d.date).isOk = true
  case neg =>
    rw [ff_fail (by simpa using h3)]
    by_cases h3a : sanitizeText d.date = ""
    · rw [if_pos h3a]
      rfl
    · rw [if_neg h3a, if_pos (by rw [normalizeDateInput_empty_iff, parse_sanitize]; simpa using h3)]
      rfl
  case pos =>
  have h3a : ¬ sanitizeText d.date = "" := by
    intro hc
    rw [parse_empty_of_sanitize hc] at h3
    simp [DateResult.isOk] at h3
  have h3b : ¬ normalizeDateInput (sanitizeText d.date) = "" := by
    rw [normalizeDateInput_empty_iff, parse_sanitize]
    simp [h3]
  rw [if_neg h3a, if_neg h3b, ff_pass h3]
  by_cases h4 : trimStr d.location = ""
  · rw [if_pos h4, ff_fail (by simp [h4])]
    rfl
  rw [if_neg h4, ff_pass (by simp [h4])]
  by_cases h5 : d.preregFee = ""
  · rw [if_pos h5, ff_fail (by simp [h5])]
    rfl
  rw [if_neg h5, ff_pass (by simp [h5])]
  by_cases h6 : d.nonRegFee = ""
  · rw [if_pos h6, ff_fail (by simp [h6])]
    rfl
  rw [if_neg h6, ff_pass (by simp [h6])]
  by_cases h7 : d.playerCap = ""
  · rw [if_pos h7, ff_fail (by simp [h7])]
    rfl
  rw [if_neg h7, ff_pass (by simp [h7])]
  by_cases h8 : d.swissRounds = ""
  · rw [if_pos h8, ff_fail (by simp [h8])]
    rfl
  rw [if_neg h8, ff_pass (by simp [h8])]
  by_cases h9 : d.topCut = ""
  · rw [if_pos h9, ff_fail (by simp [h9])]
    rfl
  rw [if_neg h9, ff_pass (by simp [h9])]
  by_cases h10 : (decide (d.regStartTime ≠ "") && isValidTimeHHMM d.regStartTime) = true
  case neg =>
    rw [ff_fail (by simpa using h10)]
    by_cases h10a : d.regStartTime = ""
    · rw [if_pos h10a]
      rfl
    · have hval : isValidTimeHHMM d.regStartTime = false := by
        simpa [h10a] using h10
      rw [if_neg h10a, if_pos (by simp [hval])]
      rfl
  case pos =>
  simp only [Bool.and_eq_true, decide_eq_true_eq] at h10
  rw [if_neg h10.1, if_neg (by simp [h10.2]), ff_pass (by simp [h10.1, h10.2])]
  by_cases h11 : (decide (d.tournamentStartTime ≠ "") && isValidTimeHHMM d.tournamentStartTime) = true
  case neg =>
    rw [ff_fail (by simpa using h11)]
    by_cases h11a : d.tournamentStartTime = ""
    · rw [if_pos h11a]
      rfl
    · have hval : isValidTimeHHMM d.tournamentStartTime = false := by
        simpa [h11a] using h11
      rw [if_neg h11a, if_pos (by simp [hval])]
      rfl
  case pos =>
  simp only [Bool.and_eq_true, decide_eq_true_eq] at h11
  rw [if_neg h11.1, if_neg (by simp [h11.2]), ff_pass (by simp [h11.1, h11.2])]
  by_cases h12 : (parseDateFlexible d.preregStartDate).isOk = true
  case neg =>
    rw [ff_fail (by simpa using h12)]
    by_cases h12a : d.preregStartDate = ""
    · rw [if_pos h12a]
      rfl
    · rw [if_neg h12a, if_pos (by rw [normalizeDateInput_empty_iff]; simpa using h12)]
      rfl
  case pos =>
  have h12a : ¬ d.preregStartDate = "" := by
    intro hc
    rw [hc] at h12
    simp [show parseDateFlexible "" = .fail "empty" from rfl, DateResult.isOk] at h12
  have h12b : ¬ normalizeDateInput d.preregStartDate = "" := by
    rw [normalizeDateInput_empty_iff]
    simp [h12]
  rw [if_neg h12a, if_neg h12b, ff_pass h12]
  by_cases h13 : (parseDateFlexible d.preregEndDate).isOk = true
  case neg =>
    rw [ff_fail (by simpa using h13)]
    by_cases h13a : d.preregEndDate = ""
    · rw [if_pos h13a]
      rfl
    · rw [if_neg h13a, if_pos (by rw [normalizeDateInput_empty_iff]; simpa using h13)]
      rfl
  case pos =>
  have h13a : ¬ d.preregEndDate = "" := by
    intro hc
    rw [hc] at h13
    simp [show parseDateFlexible "" = .fail "empty" from rfl, DateResult.isOk] at h13
  have h13b : ¬ normalizeDateInput d.preregEndDate = "" := by
    rw [normalizeDateInput_empty_iff]
    simp [h13]
  rw [if_neg h13a, if_neg h13b, ff_pass h13]
  cases hf : jsNumber d.preregFee with
  | none =>
    simp only [hf]
    rw [ff_fail (by simp [nonNegNumber, hf])]
    rfl
  | some preFee =>
    simp only [hf]
    by_cases hq : preFee.1 < 0
    · rw [if_pos hq, ff_fail (by simp only [nonNegNumber, hf]; simp; omega)]
      rfl
    · rw [if_neg hq, ff_pass (by simp only [nonNegNumber, hf]; simp; omega)]
      cases hg : jsNumber d.nonRegFee with
      | none =>
        simp only [hg]
        rw [ff_fail (by simp [nonNegNumber, hg])]
        rfl
      | some nonFee =>
        simp only [hg]
        by_cases hr : nonFee.1 < 0
        · rw [if_pos hr, ff_fail (by simp only [nonNegNumber, hg]; simp; omega)]
          rfl
        · rw [if_neg hr, ff_pass (by simp only [nonNegNumber, hg]; simp; omega)]
          cases hcap : asIntOrNaN d.playerCap with
          | none =>
            simp only [hcap]
            rw [ff_fail (by simp [positiveIntString, hcap])]
            rfl
          | some capNum =>
            simp only [hcap]
            by_cases hcp : capNum ≤ 0
            · rw [if_pos hcp, ff_fail (by simp only [positiveIntString, hcap]; simp; omega)]
              rfl
            · rw [if_neg hcp, ff_pass (by simp only [positiveIntString, hcap]; simp; omega)]
              cases hsw : asIntOrNaN d.swissRounds with
              | none =>
                simp only [hsw]
                rw [ff_fail (by simp [positiveIntString, hsw])]
                rfl
              | some swissNum =>
                simp only [hsw]
                by_cases hsp : swissNum ≤ 0
                · rw [if_pos hsp, ff_fail (by simp only [positiveIntString, hsw]; simp; omega)]
                  rfl
                · rw [if_neg hsp, ff_pass (by simp only [positiveIntString, hsw]; simp; omega)]
                  by_cases h18 : sanitizeText d.topCut = ""
                  · rw [if_pos h18, ff_fail (by simp [h18])]
                    rfl
                  · rw [if_neg h18, ff_pass (by simp [h18])]
                    rfl

end Claims

end TM
